import Mathlib

/-!
Verification of the Textalyzer duplication-detection specification.

The repository ships a fixture file (`examples/duplicates.py`) exercising a
line-oriented duplicate-code-detection engine.  The engine itself is not part
of the repository sources, so its components (Normalizer, Block Indexer,
Match Aggregator, Near-Duplicate Scorer) are modelled here from the
specification.  The fixture file is embedded verbatim as `duplicatesLines`.
-/

namespace Textalyzer

/-- Modelled from the spec: the engine configuration (§6 External Interfaces).
The repository contains no engine implementation, only the fixture file, so
the recognized options are taken from the spec's input contract. -/
structure Config where
  minBlockSize : Nat := 3
  caseSensitive : Bool := true
  ignoreBlankLines : Bool := true
  stripComments : Bool := false
  commentMark : String := "#"
  nearThreshold : Option ℚ := none
  maxReportedGroups : Option Nat := none
deriving DecidableEq, Repr

/-- Modelled from the spec: a SourceUnit (§3), an identified ordered block of
raw lines.  A line is `Option String` so that a null/undefined line — the
spec's `MalformedInput` condition (§7) — is representable. -/
structure SourceUnit where
  id : String
  lines : List (Option String)
deriving DecidableEq, Repr

/-- Modelled from the spec: error kinds of §7. -/
inductive EngineError
  | invalidConfiguration
  | malformedInput
deriving DecidableEq, Repr

/-- Modelled from the spec: a NormalizedLine (§3) with its original 1-based
line number, owning SourceUnit identifier and normalized token string
(the token string itself serves as the content key). -/
structure NormalizedLine where
  unit : String
  lineNo : Nat
  key : String
deriving DecidableEq, Repr, Inhabited

/-- A reported member span: SourceUnit identifier with inclusive start and
end line numbers (§3, MatchGroup members). -/
structure Span where
  unit : String
  startLine : Nat
  endLine : Nat
deriving DecidableEq, Repr, Inhabited

/-- Exact or near duplication (§3). -/
inductive MatchKind
  | exact
  | near
deriving DecidableEq, Repr

/-- Modelled from the spec: a MatchGroup (§3) — kind, ordered members,
match length in normalized lines, similarity score (1 for exact). -/
structure MatchGroup where
  kind : MatchKind
  members : List Span
  len : Nat
  score : ℚ
deriving DecidableEq, Repr

/-- The engine's result: the ordered groups and the truncation flag (§7). -/
structure AnalysisOutput where
  groups : List MatchGroup
  truncated : Bool
deriving DecidableEq, Repr

/-- Modelled from the spec: configuration validity (§7,
`minBlockSize ≥ 2`, `nearThreshold` in [0,1] when enabled). -/
def validConfig (cfg : Config) : Bool :=
  decide (2 ≤ cfg.minBlockSize) &&
    (match cfg.nearThreshold with
     | none => true
     | some t => decide (0 ≤ t) && decide (t ≤ 1))

/-- Accumulating whitespace tokenizer over the characters of a line. -/
def tokenizeAux : List Char → List Char → List String
  | [], acc => if acc.isEmpty then [] else [String.mk acc.reverse]
  | c :: rest, acc =>
    if c.isWhitespace then
      if acc.isEmpty then tokenizeAux rest []
      else String.mk acc.reverse :: tokenizeAux rest []
    else tokenizeAux rest (c :: acc)

/-- Whitespace-separated tokens of a raw line. -/
def tokensOf (s : String) : List String :=
  tokenizeAux s.data []

/-- Join tokens with single spaces. -/
def joinWithSpace : List String → String
  | [] => ""
  | [t] => t
  | t :: ts => t ++ " " ++ joinWithSpace ts

/-- Modelled from the spec: the Normalizer (§4.1) — strip, collapse
whitespace, optionally lowercase and strip comments; pure and deterministic. -/
def normalizeLine (cfg : Config) (s : String) : String :=
  let s1 := if cfg.stripComments then (s.splitOn cfg.commentMark).headD "" else s
  let s2 := if cfg.caseSensitive then s1 else s1.toLower
  joinWithSpace (tokensOf s2)

/-- All lines of a unit, normalized, with 1-based line numbers. -/
def normalizedOf (cfg : Config) (u : SourceUnit) : List NormalizedLine :=
  u.lines.enum.map fun p =>
    { unit := u.id, lineNo := p.1 + 1, key := normalizeLine cfg (p.2.getD "") }

/-- The windowable sequence of a unit: lines that became empty under
normalization are ignorable (§4.1) and are skipped when forming windows
(§4.2), while original line numbers are preserved. -/
def seqOf (cfg : Config) (u : SourceUnit) : List NormalizedLine :=
  if cfg.ignoreBlankLines then (normalizedOf cfg u).filter (fun n => n.key ≠ "")
  else normalizedOf cfg u

/-- A window into one unit's windowable sequence: the sequence together with
the start index.  Windows are ephemeral (§3). -/
structure RawWin where
  seq : List NormalizedLine
  idx : Nat
deriving DecidableEq, Repr

/-- Modelled from the spec: the Block Indexer (§4.2) — every window of
length `k` obtained by sliding one line at a time; a unit shorter than `k`
windowable lines produces zero windows. -/
def windowsOf (k : Nat) (seq : List NormalizedLine) : List RawWin :=
  (List.range (seq.length + 1 - k)).map fun i => ⟨seq, i⟩

/-- The window's fingerprint: the keys of its `k` lines (§4.2; hash
collisions are abstracted away, the key list itself is the fingerprint). -/
def fingerprintAt (k : Nat) (w : RawWin) : List String :=
  ((w.seq.drop w.idx).take k).map (fun n => n.key)

/-- All windows of all units, in unit order then start order. -/
def allWindows (cfg : Config) (units : List SourceUnit) : List RawWin :=
  (units.map fun u => windowsOf cfg.minBlockSize (seqOf cfg u)).flatten

/-- Insert a window into the fingerprint-keyed group list, preserving
first-occurrence order of fingerprints and member order. -/
def insertByFp (k : Nat) (w : RawWin) :
    List (List String × List RawWin) → List (List String × List RawWin)
  | [] => [(fingerprintAt k w, [w])]
  | (f, ms) :: rest =>
    if f = fingerprintAt k w then (f, ms ++ [w]) :: rest
    else (f, ms) :: insertByFp k w rest

/-- Modelled from the spec: group windows by fingerprint across all
SourceUnits, including within the same unit (§4.3). -/
def groupByFp (k : Nat) (ws : List RawWin) : List (List String × List RawWin) :=
  ws.foldl (fun acc w => insertByFp k w acc) []

/-- The key of the line `i` positions past the window start, if any. -/
def keyAt (w : RawWin) (i : Nat) : Option String :=
  (w.seq[w.idx + i]?).map (fun n => n.key)

/-- Whether every member of the group can be grown past offset `k + e`
with all the new lines equal (§4.3 step 2). -/
def allNextEqual (k : Nat) (ms : List RawWin) (e : Nat) : Bool :=
  match ms with
  | [] => false
  | w :: rest =>
    match keyAt w (k + e) with
    | none => false
    | some s => rest.all fun w2 => keyAt w2 (k + e) = some s

/-- Fuel-bounded scan for the extension length. -/
def extendLenAux (k : Nat) (ms : List RawWin) : Nat → Nat → Nat
  | 0, e => e
  | fuel + 1, e => if allNextEqual k ms e then extendLenAux k ms fuel (e + 1) else e

/-- Fuel that certainly reaches past every member's end of sequence. -/
def extendFuel (ms : List RawWin) : Nat :=
  (ms.map fun w => w.seq.length).foldl (· + ·) 0

/-- Modelled from the spec: maximal simultaneous extension of a
fingerprint group — grow all members by one line while the lines remain
equal, stop at the first mismatch or input boundary (§4.3 step 2). -/
def extendLen (k : Nat) (ms : List RawWin) : Nat :=
  extendLenAux k ms (extendFuel ms) 0

/-- The reported span of a window grown to `len` lines. -/
def spanAt (w : RawWin) (len : Nat) : Span :=
  { unit := (w.seq.getD w.idx default).unit
    startLine := (w.seq.getD w.idx default).lineNo
    endLine := (w.seq.getD (w.idx + len - 1) default).lineNo }

/-- An Exact MatchGroup from a fingerprint group, after extension. -/
def buildExact (k : Nat) (ms : List RawWin) : MatchGroup :=
  let len := k + extendLen k ms
  { kind := .exact, members := ms.map (fun w => spanAt w len), len := len, score := 1 }

/-- All extended exact groups with at least two members (§4.3). -/
def exactCandidates (cfg : Config) (units : List SourceUnit) : List MatchGroup :=
  ((groupByFp cfg.minBlockSize (allWindows cfg units)).filter
      (fun g => 2 ≤ g.2.length)).map (fun g => buildExact cfg.minBlockSize g.2)

/-- Length-descending order used before deduplication. -/
def lenGE (g h : MatchGroup) : Prop := h.len ≤ g.len

instance : DecidableRel lenGE := fun g h =>
  decidable_of_iff (h.len ≤ g.len) Iff.rfl

instance : IsTotal MatchGroup lenGE :=
  ⟨fun g h => (Nat.le_total h.len g.len).imp id id⟩

instance : IsTrans MatchGroup lenGE :=
  ⟨fun _ _ _ h1 h2 => Nat.le_trans h2 h1⟩

/-- Span containment: `m` lies within `m2` in the same unit. -/
def spanInside (m m2 : Span) : Prop :=
  m.unit = m2.unit ∧ m2.startLine ≤ m.startLine ∧ m.endLine ≤ m2.endLine

instance (m m2 : Span) : Decidable (spanInside m m2) :=
  decidable_of_iff (m.unit = m2.unit ∧ m2.startLine ≤ m.startLine ∧ m.endLine ≤ m2.endLine)
    Iff.rfl

/-- Group containment: every member of `g` lies within a member of `h`
from the same unit (§4.3 step 3). -/
def groupInside (g h : MatchGroup) : Prop :=
  ∀ m ∈ g.members, ∃ m2 ∈ h.members, spanInside m m2

instance (g h : MatchGroup) : Decidable (groupInside g h) := by
  unfold groupInside
  exact inferInstance

/-- One deduplication step: drop the group when it is fully contained in an
already-reported match (§4.3 step 3). -/
def dedupStep (acc : List MatchGroup) (g : MatchGroup) : List MatchGroup :=
  if ∃ h ∈ acc, groupInside g h then acc else acc ++ [g]

/-- Modelled from the spec: deduplication — only maximal, non-contained
groups are reported (§4.3 step 3); groups are considered longest first. -/
def dedup (gs : List MatchGroup) : List MatchGroup :=
  gs.foldl dedupStep []

/-- The reported Exact groups: grouped, extended, considered longest first,
deduplicated. -/
def exactGroups (cfg : Config) (units : List SourceUnit) : List MatchGroup :=
  dedup ((exactCandidates cfg units).insertionSort lenGE)

/-- The words of a window, for the similarity score. -/
def windowWords (k : Nat) (w : RawWin) : List String :=
  ((fingerprintAt k w).map tokensOf).flatten

/-- Multiset intersection cardinality of two word lists. -/
def bagInter : List String → List String → Nat
  | [], _ => 0
  | a :: as, bs => if a ∈ bs then bagInter as (bs.erase a) + 1 else bagInter as bs

/-- Modelled from the spec: the similarity score of the Near-Duplicate
Scorer (§4.4, §9) — the exact metric is left to the implementer; this model
uses the Sørensen–Dice coefficient of the two windows' word multisets,
a normalized shingle-overlap score in [0,1]. -/
def diceScore (k : Nat) (w1 w2 : RawWin) : ℚ :=
  let a := windowWords k w1
  let b := windowWords k w2
  mkRat (2 * bagInter a b) (a.length + b.length)

/-- Positions at which the two fingerprints agree. -/
def sharedLineCount (k : Nat) (w1 w2 : RawWin) : Nat :=
  (((fingerprintAt k w1).zip (fingerprintAt k w2)).filter (fun p => p.1 = p.2)).length

/-- Modelled from the spec: near candidates are window pairs that failed to
fingerprint-match exactly but share at least `(k-1)/k` of their line hashes
(§4.4). -/
def isNearCandidate (k : Nat) (w1 w2 : RawWin) : Bool :=
  decide (fingerprintAt k w1 ≠ fingerprintAt k w2) &&
    decide (k - 1 ≤ sharedLineCount k w1 w2)

/-- All ordered pairs of a list, first component earlier in the list. -/
def orderedPairs : List α → List (α × α)
  | [] => []
  | a :: as => (as.map fun b => (a, b)) ++ orderedPairs as

/-- A Near MatchGroup from a candidate pair (§4.4): reported separately
from Exact groups, never merged into them. -/
def buildNear (k : Nat) (w1 w2 : RawWin) : MatchGroup :=
  { kind := .near, members := [spanAt w1 k, spanAt w2 k], len := k
    score := diceScore k w1 w2 }

/-- All near candidate groups, independent of the threshold. -/
def nearCandidates (cfg : Config) (units : List SourceUnit) : List MatchGroup :=
  ((orderedPairs (allWindows cfg units)).filter
      (fun p => isNearCandidate cfg.minBlockSize p.1 p.2)).map
    (fun p => buildNear cfg.minBlockSize p.1 p.2)

/-- Modelled from the spec: `maxReportedGroups` (§7) — once the cap is
reached the engine stops aggregating further groups and marks the output as
truncated. -/
def applyCap (cap : Option Nat) (ex nr : List MatchGroup) :
    List MatchGroup × List MatchGroup × Bool :=
  match cap with
  | none => (ex, nr, false)
  | some n =>
    if ex.length + nr.length ≤ n then (ex, nr, false)
    else (ex.take n, nr.take (n - ex.length), true)

/-- The Exact groups surviving the cap. -/
def cappedExact (cfg : Config) (units : List SourceUnit) : List MatchGroup :=
  (applyCap cfg.maxReportedGroups (exactGroups cfg units) (nearCandidates cfg units)).1

/-- The near candidates surviving the cap. -/
def cappedNear (cfg : Config) (units : List SourceUnit) : List MatchGroup :=
  (applyCap cfg.maxReportedGroups (exactGroups cfg units) (nearCandidates cfg units)).2.1

/-- Whether the cap truncated the output. -/
def capFlag (cfg : Config) (units : List SourceUnit) : Bool :=
  (applyCap cfg.maxReportedGroups (exactGroups cfg units) (nearCandidates cfg units)).2.2

/-- Modelled from the spec: the Near-Duplicate Scorer's threshold gate
(§4.4) — groups meeting or exceeding `nearThreshold` are emitted; the
scorer is skipped when the threshold is disabled. -/
def thresholdFilter (t? : Option ℚ) (nr : List MatchGroup) : List MatchGroup :=
  match t? with
  | none => []
  | some t => nr.filter fun g => decide (t ≤ g.score)

/-- All reported groups before the final ordering. -/
def collectGroups (cfg : Config) (units : List SourceUnit) : List MatchGroup :=
  cappedExact cfg units ++ thresholdFilter cfg.nearThreshold (cappedNear cfg units)

/-- Strict order on characters, by code point. -/
def charLTb (a b : Char) : Bool := decide (a.val < b.val)

/-- Lexicographic strict order on character lists. -/
def listLTb : List Char → List Char → Bool
  | [], [] => false
  | [], _ :: _ => true
  | _ :: _, [] => false
  | a :: as, b :: bs =>
    if charLTb a b then true
    else if charLTb b a then false
    else listLTb as bs

/-- Lexicographic strict order on SourceUnit identifiers. -/
def unitLTb (x y : String) : Bool := listLTb x.data y.data

/-- The first member of a group, which determines the report position. -/
def firstMember (g : MatchGroup) : Span := g.members.headD default

/-- Modelled from the spec: the report order (§4.3 step 4) — descending
match length, then ascending first-occurrence SourceUnit identifier, then
ascending start line. -/
def groupLE (g h : MatchGroup) : Prop :=
  h.len < g.len ∨
    (g.len = h.len ∧
      (unitLTb (firstMember g).unit (firstMember h).unit = true ∨
        ((firstMember g).unit = (firstMember h).unit ∧
          (firstMember g).startLine ≤ (firstMember h).startLine)))

instance : DecidableRel groupLE := fun g h => by
  unfold groupLE
  exact inferInstance

/-- Modelled from the spec: one full analysis run over valid input
(Normalizing → Indexing → Aggregating → Scoring, then the ordered report). -/
def run (cfg : Config) (units : List SourceUnit) : AnalysisOutput :=
  { groups := (collectGroups cfg units).insertionSort groupLE
    truncated := capFlag cfg units }

instance {ε α : Type} [DecidableEq ε] [DecidableEq α] : DecidableEq (Except ε α) :=
  fun x y =>
    match x, y with
    | .error a, .error b =>
      if h : a = b then isTrue (by rw [h])
      else isFalse (by intro hh; cases hh; exact h rfl)
    | .ok a, .ok b =>
      if h : a = b then isTrue (by rw [h])
      else isFalse (by intro hh; cases hh; exact h rfl)
    | .error _, .ok _ => isFalse (by intro hh; cases hh)
    | .ok _, .error _ => isFalse (by intro hh; cases hh)

/-- Whether some unit holds a null/undefined line (§7 MalformedInput). -/
def hasMalformed (units : List SourceUnit) : Bool :=
  units.any fun u => u.lines.any fun l => l.isNone

/-- Modelled from the spec: the engine entry point — validate the
configuration before any SourceUnit is processed, abort all-or-nothing on
malformed input, otherwise run the stateless pipeline (§4.4, §7). -/
def analyze (cfg : Config) (units : List SourceUnit) :
    Except EngineError AnalysisOutput :=
  if validConfig cfg = false then .error .invalidConfiguration
  else if hasMalformed units then .error .malformedInput
  else .ok (run cfg units)

/-- The raw lines of `examples/duplicates.py`, embedded verbatim. -/
def duplicatesLines : List String :=
  [ "#!/usr/bin/env python3"
  , "\"\"\""
  , "Example script that contains multi-line duplications."
  , "This is to demonstrate the Textalyzer duplication detection."
  , "\"\"\""
  , ""
  , "def function_one():"
  , "    # This block will be repeated in other functions"
  , "    print(\"This is the first line in a block\")"
  , "    print(\"This is the second line in a block\")"
  , "    print(\"This is the third line in a block\")"
  , "    "
  , "    # This is unique to function_one"
  , "    print(\"This line only appears in function_one\")"
  , "    "
  , "    # This block is repeated in all functions"
  , "    return \"All functions return this exact string\""
  , ""
  , "def function_two():"
  , "    # Some unique code to function_two"
  , "    print(\"Starting function_two\")"
  , "    "
  , "    # This block will be repeated in other functions"
  , "    print(\"This is the first line in a block\")"
  , "    print(\"This is the second line in a block\")"
  , "    print(\"This is the third line in a block\")"
  , "    "
  , "    # This block is repeated in all functions"
  , "    return \"All functions return this exact string\""
  , ""
  , "def function_three():"
  , "    # Unique section"
  , "    x = 10"
  , "    y = 20"
  , "    z = x + y"
  , "    print(f\"The sum is {z}\")"
  , "    "
  , "    # Another common block with slight variation"
  , "    print(\"This is the first line in a block\")"
  , "    print(\"This is the second line in a block\")"
  , "    print(\"This line is different in function_three\")"
  , "    "
  , "    # This block is repeated in all functions"
  , "    return \"All functions return this exact string\""
  , ""
  , "# All of these functions are called from main"
  , "def main():"
  , "    function_one()"
  , "    function_two()"
  , "    function_three()"
  , ""
  , "if __name__ == \"__main__\":"
  , "    main()" ]

/-- The fixture file as a SourceUnit. -/
def duplicatesUnit : SourceUnit :=
  { id := "examples/duplicates.py", lines := duplicatesLines.map some }

/-- The default configuration (§6). -/
def defaultConfig : Config := {}

/-- The configuration of Scenario 1 (§8): `minBlockSize = 3`, near
detection enabled at threshold 0.8, remaining options at their defaults. -/
def scenarioConfig : Config :=
  { minBlockSize := 3, nearThreshold := some (mkRat 4 5) }

/-- A member span originates from a window of `len` consecutive lines of
some supplied unit's windowable sequence. -/
def memberOrigin (cfg : Config) (units : List SourceUnit) (len : Nat) (m : Span) : Prop :=
  ∃ u ∈ units, u.id = m.unit ∧
    ∃ i, i + len ≤ (seqOf cfg u).length ∧ m = spanAt ⟨seqOf cfg u, i⟩ len

/-- Well-formedness of a reported group: its length is at least
`minBlockSize`, every member is a window of the group's length into a
supplied unit, and Near groups have exactly the base window length. -/
def groupWF (cfg : Config) (units : List SourceUnit) (g : MatchGroup) : Prop :=
  cfg.minBlockSize ≤ g.len ∧
    (∀ m ∈ g.members, memberOrigin cfg units g.len m) ∧
    (g.kind = .near → g.len = cfg.minBlockSize)

/-- `g`'s span is a (weak) sub-span of `h`'s between the same pair of
locations, and strictly smaller at some member pair. -/
def strictlyInside (g h : MatchGroup) : Prop :=
  groupInside g h ∧ ∃ m ∈ g.members, ∃ m2 ∈ h.members, spanInside m m2 ∧ m ≠ m2

/-! ### Basic facts about the entry point -/

theorem analyze_ok_inv {cfg : Config} {units : List SourceUnit}
    {out : AnalysisOutput} (h : analyze cfg units = .ok out) :
    validConfig cfg = true ∧ hasMalformed units = false ∧ out = run cfg units := by
  unfold analyze at h
  by_cases hv : validConfig cfg = false
  · rw [if_pos hv] at h
    cases h
  · rw [if_neg hv] at h
    by_cases hm : hasMalformed units = true
    · rw [if_pos hm] at h
      cases h
    · rw [if_neg hm] at h
      cases h
      exact ⟨Bool.eq_true_of_not_eq_false hv, Bool.eq_false_of_not_eq_true hm, rfl⟩

theorem validConfig_min {cfg : Config} (h : validConfig cfg = true) :
    2 ≤ cfg.minBlockSize := by
  unfold validConfig at h
  rw [Bool.and_eq_true] at h
  exact of_decide_eq_true h.1

/-! ### Provenance of reported members -/

theorem mem_windowsOf {k : Nat} {seq : List NormalizedLine} {w : RawWin}
    (h : w ∈ windowsOf k seq) : w.seq = seq ∧ w.idx + k ≤ seq.length := by
  unfold windowsOf at h
  simp only [List.mem_map, List.mem_range] at h
  obtain ⟨i, hi, rfl⟩ := h
  refine ⟨rfl, ?_⟩
  show i + k ≤ seq.length
  omega

theorem mem_allWindows {cfg : Config} {units : List SourceUnit} {w : RawWin}
    (h : w ∈ allWindows cfg units) :
    ∃ u ∈ units, w.seq = seqOf cfg u ∧ w.idx + cfg.minBlockSize ≤ w.seq.length := by
  unfold allWindows at h
  simp only [List.mem_flatten, List.mem_map] at h
  obtain ⟨l, ⟨u, hu, rfl⟩, hw⟩ := h
  obtain ⟨h1, h2⟩ := mem_windowsOf hw
  exact ⟨u, hu, h1, by rw [h1]; exact h2⟩

theorem insertByFp_mem {k : Nat} {w x : RawWin} :
    ∀ {acc : List (List String × List RawWin)} {p},
      p ∈ insertByFp k w acc → x ∈ p.2 → x = w ∨ ∃ q ∈ acc, x ∈ q.2 := by
  intro acc
  induction acc with
  | nil =>
    intro p hp hx
    simp only [insertByFp, List.mem_singleton] at hp
    subst hp
    simp only [List.mem_singleton] at hx
    exact Or.inl hx
  | cons q rest ih =>
    intro p hp hx
    simp only [insertByFp] at hp
    by_cases hf : q.1 = fingerprintAt k w
    · rw [if_pos hf] at hp
      rcases List.mem_cons.mp hp with hp | hp
      · subst hp
        simp only [List.mem_append, List.mem_singleton] at hx
        rcases hx with hx | hx
        · exact Or.inr ⟨q, List.mem_cons_self q rest, hx⟩
        · exact Or.inl hx
      · exact Or.inr ⟨p, List.mem_cons_of_mem q hp, hx⟩
    · rw [if_neg hf] at hp
      rcases List.mem_cons.mp hp with hp | hp
      · exact Or.inr ⟨q, List.mem_cons_self q rest, by rw [hp] at hx; exact hx⟩
      · rcases ih hp hx with h | ⟨q2, hq2, hxq⟩
        · exact Or.inl h
        · exact Or.inr ⟨q2, List.mem_cons_of_mem q hq2, hxq⟩

theorem groupByFp_aux_mem {k : Nat} {x : RawWin} :
    ∀ (ws : List RawWin) (acc : List (List String × List RawWin))
      (p : List String × List RawWin),
      p ∈ List.foldl (fun a w => insertByFp k w a) acc ws → x ∈ p.2 →
        (∃ q ∈ acc, x ∈ q.2) ∨ x ∈ ws := by
  intro ws
  induction ws with
  | nil =>
    intro acc p hp hx
    exact Or.inl ⟨p, hp, hx⟩
  | cons w rest ih =>
    intro acc p hp hx
    simp only [List.foldl_cons] at hp
    rcases ih (insertByFp k w acc) p hp hx with ⟨q, hq, hxq⟩ | h
    · rcases insertByFp_mem hq hxq with h | ⟨q2, hq2, hxq2⟩
      · exact Or.inr (h ▸ List.mem_cons_self w rest)
      · exact Or.inl ⟨q2, hq2, hxq2⟩
    · exact Or.inr (List.mem_cons_of_mem w h)

theorem groupByFp_mem {k : Nat} {ws : List RawWin} {p} (hp : p ∈ groupByFp k ws)
    {x : RawWin} (hx : x ∈ p.2) : x ∈ ws := by
  rcases groupByFp_aux_mem ws [] p hp hx with ⟨q, hq, _⟩ | h
  · cases hq
  · exact h

theorem keyAt_some_lt {w : RawWin} {i : Nat} {s : String}
    (h : keyAt w i = some s) : w.idx + i < w.seq.length := by
  unfold keyAt at h
  by_contra hlt
  rw [List.getElem?_eq_none (by omega)] at h
  cases h

theorem allNextEqual_bound {k : Nat} {ms : List RawWin} {e : Nat}
    (h : allNextEqual k ms e = true) :
    ∀ w ∈ ms, w.idx + (k + e) < w.seq.length := by
  intro w hw
  cases ms with
  | nil => cases hw
  | cons w0 rest =>
    have hm : (match keyAt w0 (k + e) with
        | none => false
        | some s => rest.all fun w2 => decide (keyAt w2 (k + e) = some s)) = true := h
    cases hk : keyAt w0 (k + e) with
    | none => rw [hk] at hm; cases hm
    | some s =>
      rw [hk] at hm
      rcases List.mem_cons.mp hw with rfl | hw2
      · have := keyAt_some_lt hk
        omega
      · rw [List.all_eq_true] at hm
        have h2 := of_decide_eq_true (hm w hw2)
        have := keyAt_some_lt h2
        omega

theorem extendLenAux_bound {k : Nat} {ms : List RawWin} :
    ∀ (fuel e : Nat), (∀ w ∈ ms, w.idx + (k + e) ≤ w.seq.length) →
      ∀ w ∈ ms, w.idx + (k + extendLenAux k ms fuel e) ≤ w.seq.length := by
  intro fuel
  induction fuel with
  | zero => intro e he w hw; exact he w hw
  | succ fuel ih =>
    intro e he w hw
    unfold extendLenAux
    by_cases hall : allNextEqual k ms e = true
    · rw [if_pos hall]
      exact ih (e + 1) (fun w2 hw2 => by have := allNextEqual_bound hall w2 hw2; omega) w hw
    · rw [if_neg hall]
      exact he w hw

theorem extendLen_bound {k : Nat} {ms : List RawWin}
    (h : ∀ w ∈ ms, w.idx + k ≤ w.seq.length) :
    ∀ w ∈ ms, w.idx + (k + extendLen k ms) ≤ w.seq.length :=
  extendLenAux_bound (extendFuel ms) 0 (fun w hw => by have := h w hw; omega)

theorem seqOf_unit {cfg : Config} {u : SourceUnit} :
    ∀ n ∈ seqOf cfg u, n.unit = u.id := by
  intro n hn
  unfold seqOf at hn
  by_cases hb : cfg.ignoreBlankLines
  · rw [if_pos hb] at hn
    have hn2 := List.mem_of_mem_filter hn
    unfold normalizedOf at hn2
    obtain ⟨p, _, rfl⟩ := List.mem_map.mp hn2
    rfl
  · rw [if_neg hb] at hn
    unfold normalizedOf at hn
    obtain ⟨p, _, rfl⟩ := List.mem_map.mp hn
    rfl

theorem spanAt_unit {cfg : Config} {u : SourceUnit} {i len : Nat}
    (hi : i < (seqOf cfg u).length) :
    (spanAt ⟨seqOf cfg u, i⟩ len).unit = u.id := by
  unfold spanAt
  simp only
  rw [List.getD_eq_getElem _ _ hi]
  exact seqOf_unit _ (List.getElem_mem hi)

theorem buildExact_wf {cfg : Config} {units : List SourceUnit} {ms : List RawWin}
    (hk : 1 ≤ cfg.minBlockSize)
    (hms : ∀ w ∈ ms, w ∈ allWindows cfg units) :
    groupWF cfg units (buildExact cfg.minBlockSize ms) := by
  have hbound : ∀ w ∈ ms, w.idx + cfg.minBlockSize ≤ w.seq.length := by
    intro w hw
    exact (mem_allWindows (hms w hw)).choose_spec.2.2
  have hext := extendLen_bound hbound
  refine ⟨Nat.le_add_right _ _, ?_, ?_⟩
  · intro m hm
    simp only [buildExact, List.mem_map] at hm
    obtain ⟨w, hw, rfl⟩ := hm
    obtain ⟨u, hu, hseq, _⟩ := mem_allWindows (hms w hw)
    have hb : w.idx + (cfg.minBlockSize + extendLen cfg.minBlockSize ms) ≤
        (seqOf cfg u).length := by
      rw [← hseq]; exact hext w hw
    have hwin : w = (⟨seqOf cfg u, w.idx⟩ : RawWin) := by
      rw [← hseq]
    have hlen : (buildExact cfg.minBlockSize ms).len
        = cfg.minBlockSize + extendLen cfg.minBlockSize ms := rfl
    refine ⟨u, hu, ?_, w.idx, by rw [hlen]; exact hb, by rw [hlen, ← hwin]⟩
    rw [hwin]
    exact (spanAt_unit (by omega)).symm
  · intro hkind
    cases hkind

theorem exactCandidates_wf {cfg : Config} {units : List SourceUnit}
    (hk : 1 ≤ cfg.minBlockSize) :
    ∀ g ∈ exactCandidates cfg units, groupWF cfg units g := by
  intro g hg
  unfold exactCandidates at hg
  obtain ⟨p, hp, rfl⟩ := List.mem_map.mp hg
  exact buildExact_wf hk fun w hw => groupByFp_mem (List.mem_of_mem_filter hp) hw

theorem exactCandidates_kind {cfg : Config} {units : List SourceUnit} :
    ∀ g ∈ exactCandidates cfg units, g.kind = .exact := by
  intro g hg
  obtain ⟨p, _, rfl⟩ := List.mem_map.mp hg
  rfl

theorem mem_orderedPairs {α : Type} {l : List α} {p : α × α}
    (h : p ∈ orderedPairs l) : p.1 ∈ l ∧ p.2 ∈ l := by
  induction l with
  | nil => cases h
  | cons a as ih =>
    simp only [orderedPairs, List.mem_append, List.mem_map] at h
    rcases h with ⟨b, hb, rfl⟩ | h
    · exact ⟨List.mem_cons_self a as, List.mem_cons_of_mem a hb⟩
    · obtain ⟨h1, h2⟩ := ih h
      exact ⟨List.mem_cons_of_mem a h1, List.mem_cons_of_mem a h2⟩

theorem buildNear_wf {cfg : Config} {units : List SourceUnit} {w1 w2 : RawWin}
    (hk : 1 ≤ cfg.minBlockSize)
    (h1 : w1 ∈ allWindows cfg units) (h2 : w2 ∈ allWindows cfg units) :
    groupWF cfg units (buildNear cfg.minBlockSize w1 w2) := by
  refine ⟨Nat.le_refl _, ?_, fun _ => rfl⟩
  intro m hm
  simp only [buildNear, List.mem_cons, List.mem_singleton] at hm
  have origin : ∀ w : RawWin, w ∈ allWindows cfg units →
      memberOrigin cfg units cfg.minBlockSize (spanAt w cfg.minBlockSize) := by
    intro w hw
    obtain ⟨u, hu, hseq, hb⟩ := mem_allWindows hw
    have hwin : w = (⟨seqOf cfg u, w.idx⟩ : RawWin) := by
      rw [← hseq]
    refine ⟨u, hu, ?_, w.idx, by rw [← hseq]; exact hb, by rw [← hwin]⟩
    rw [hwin]
    refine (spanAt_unit ?_).symm
    rw [← hseq]
    omega
  rcases hm with rfl | hm2
  · exact origin w1 h1
  · rcases hm2 with rfl | hm3
    · exact origin w2 h2
    · cases hm3

theorem nearCandidates_wf {cfg : Config} {units : List SourceUnit}
    (hk : 1 ≤ cfg.minBlockSize) :
    ∀ g ∈ nearCandidates cfg units, groupWF cfg units g := by
  intro g hg
  unfold nearCandidates at hg
  obtain ⟨p, hp, rfl⟩ := List.mem_map.mp hg
  obtain ⟨hp1, hp2⟩ := mem_orderedPairs (List.mem_of_mem_filter hp)
  exact buildNear_wf hk hp1 hp2

theorem nearCandidates_kind {cfg : Config} {units : List SourceUnit} :
    ∀ g ∈ nearCandidates cfg units, g.kind = .near := by
  intro g hg
  obtain ⟨p, _, rfl⟩ := List.mem_map.mp hg
  rfl

/-! ### Deduplication -/

theorem foldl_dedupStep_sublist :
    ∀ (gs acc : List MatchGroup),
      ∃ rest, List.foldl dedupStep acc gs = acc ++ rest ∧ rest.Sublist gs := by
  intro gs
  induction gs with
  | nil => exact fun acc => ⟨[], by simp⟩
  | cons g rest ih =>
    intro acc
    simp only [List.foldl_cons]
    by_cases hc : ∃ h ∈ acc, groupInside g h
    · have hstep : dedupStep acc g = acc := by unfold dedupStep; rw [if_pos hc]
      rw [hstep]
      obtain ⟨r, hr, hs⟩ := ih acc
      exact ⟨r, hr, hs.cons g⟩
    · have hstep : dedupStep acc g = acc ++ [g] := by unfold dedupStep; rw [if_neg hc]
      rw [hstep]
      obtain ⟨r, hr, hs⟩ := ih (acc ++ [g])
      exact ⟨g :: r, by rw [hr, List.append_assoc]; rfl, hs.cons₂ g⟩

theorem dedup_sublist (gs : List MatchGroup) : (dedup gs).Sublist gs := by
  obtain ⟨r, hr, hs⟩ := foldl_dedupStep_sublist gs []
  unfold dedup
  rw [hr]
  exact hs

theorem foldl_dedupStep_pairwise :
    ∀ (gs acc : List MatchGroup),
      acc.Pairwise (fun a b => ¬ groupInside b a) →
      (List.foldl dedupStep acc gs).Pairwise (fun a b => ¬ groupInside b a) := by
  intro gs
  induction gs with
  | nil => exact fun acc h => h
  | cons g rest ih =>
    intro acc hacc
    simp only [List.foldl_cons]
    apply ih
    by_cases hc : ∃ h ∈ acc, groupInside g h
    · have hstep : dedupStep acc g = acc := by unfold dedupStep; rw [if_pos hc]
      rw [hstep]; exact hacc
    · have hstep : dedupStep acc g = acc ++ [g] := by unfold dedupStep; rw [if_neg hc]
      rw [hstep]
      rw [List.pairwise_append]
      refine ⟨hacc, List.pairwise_singleton _ _, ?_⟩
      intro a ha b hb
      rw [List.mem_singleton] at hb
      subst hb
      exact fun hin => hc ⟨a, ha, hin⟩

theorem dedup_pairwise (gs : List MatchGroup) :
    (dedup gs).Pairwise (fun a b => ¬ groupInside b a) :=
  foldl_dedupStep_pairwise gs [] List.Pairwise.nil

theorem exactGroups_subset {cfg : Config} {units : List SourceUnit} :
    ∀ g ∈ exactGroups cfg units, g ∈ exactCandidates cfg units := by
  intro g hg
  have := (dedup_sublist _).subset hg
  exact (List.mem_insertionSort _).mp this

theorem applyCap_fst_subset (cap : Option Nat) (ex nr : List MatchGroup) :
    (applyCap cap ex nr).1 ⊆ ex := by
  cases cap with
  | none => exact fun g hg => hg
  | some n =>
    show (if ex.length + nr.length ≤ n then (ex, nr, false)
        else (ex.take n, nr.take (n - ex.length), true)).1 ⊆ ex
    by_cases hle : ex.length + nr.length ≤ n
    · rw [if_pos hle]; exact fun g hg => hg
    · rw [if_neg hle]; exact List.take_subset _ _

theorem applyCap_snd_subset (cap : Option Nat) (ex nr : List MatchGroup) :
    (applyCap cap ex nr).2.1 ⊆ nr := by
  cases cap with
  | none => exact fun g hg => hg
  | some n =>
    show (if ex.length + nr.length ≤ n then (ex, nr, false)
        else (ex.take n, nr.take (n - ex.length), true)).2.1 ⊆ nr
    by_cases hle : ex.length + nr.length ≤ n
    · rw [if_pos hle]; exact fun g hg => hg
    · rw [if_neg hle]; exact List.take_subset _ _

theorem cappedExact_subset {cfg : Config} {units : List SourceUnit} :
    ∀ g ∈ cappedExact cfg units, g ∈ exactGroups cfg units := by
  intro g hg
  exact applyCap_fst_subset _ _ _ hg

theorem cappedNear_subset {cfg : Config} {units : List SourceUnit} :
    ∀ g ∈ cappedNear cfg units, g ∈ nearCandidates cfg units := by
  intro g hg
  exact applyCap_snd_subset _ _ _ hg

theorem thresholdFilter_subset {t? : Option ℚ} {nr : List MatchGroup} :
    ∀ g ∈ thresholdFilter t? nr, g ∈ nr := by
  intro g hg
  unfold thresholdFilter at hg
  cases t? with
  | none => cases hg
  | some t => exact List.mem_of_mem_filter hg

theorem collectGroups_wf {cfg : Config} {units : List SourceUnit}
    (hk : 1 ≤ cfg.minBlockSize) :
    ∀ g ∈ collectGroups cfg units, groupWF cfg units g := by
  intro g hg
  rcases List.mem_append.mp hg with hg | hg
  · exact exactCandidates_wf hk g (exactGroups_subset g (cappedExact_subset g hg))
  · exact nearCandidates_wf hk g (cappedNear_subset g (thresholdFilter_subset g hg))

theorem run_mem {cfg : Config} {units : List SourceUnit} {g : MatchGroup} :
    g ∈ (run cfg units).groups ↔ g ∈ collectGroups cfg units := by
  unfold run
  exact List.mem_insertionSort _

/-! ### Line numbers grow strictly along a windowable sequence -/

theorem mem_enumFrom_le {α : Type} : ∀ (l : List α) (n : Nat) (p : Nat × α),
    p ∈ List.enumFrom n l → n ≤ p.1 := by
  intro l
  induction l with
  | nil => intro n p hp; cases hp
  | cons x xs ih =>
    intro n p hp
    rw [List.enumFrom_cons] at hp
    rcases List.mem_cons.mp hp with rfl | hp
    · exact Nat.le_refl n
    · have := ih (n + 1) p hp
      omega

theorem pairwise_enumFrom {α : Type} : ∀ (l : List α) (n : Nat),
    (List.enumFrom n l).Pairwise (fun a b => a.1 < b.1) := by
  intro l
  induction l with
  | nil => intro n; exact List.Pairwise.nil
  | cons x xs ih =>
    intro n
    rw [List.enumFrom_cons]
    refine List.Pairwise.cons ?_ (ih (n + 1))
    intro p hp
    have := mem_enumFrom_le xs (n + 1) p hp
    omega

theorem seqOf_mono (cfg : Config) (u : SourceUnit) :
    (seqOf cfg u).Pairwise (fun a b => a.lineNo < b.lineNo) := by
  have h1 : (normalizedOf cfg u).Pairwise (fun a b => a.lineNo < b.lineNo) := by
    unfold normalizedOf
    exact List.Pairwise.map _ (fun a b hab => by simpa using hab)
      (pairwise_enumFrom u.lines 0)
  unfold seqOf
  by_cases hb : cfg.ignoreBlankLines
  · rw [if_pos hb]
    exact h1.filter _
  · rw [if_neg hb]
    exact h1

theorem getD_lineNo {seq : List NormalizedLine} {i : Nat} (h : i < seq.length) :
    (seq.getD i default).lineNo = (seq[i]).lineNo := by
  rw [List.getD_eq_getElem?_getD, List.getElem?_eq_getElem h]
  rfl

theorem index_le_of_lineNo_le {seq : List NormalizedLine}
    (hmono : seq.Pairwise fun a b => a.lineNo < b.lineNo)
    {i j : Nat} (hi : i < seq.length) (hj : j < seq.length)
    (h : (seq[i]).lineNo ≤ (seq[j]).lineNo) : i ≤ j := by
  by_contra hc
  have := (List.pairwise_iff_getElem.mp hmono) j i hj hi (by omega)
  omega

/-- Interval containment of two window spans over the same windowable
sequence forces the shorter normalized length; strict containment forces a
strictly shorter one. -/
theorem spanAt_inside_len_lt {seq : List NormalizedLine}
    (hmono : seq.Pairwise fun a b => a.lineNo < b.lineNo)
    {i j la lb : Nat} (hla : 1 ≤ la) (hlb : 1 ≤ lb)
    (hi : i + la ≤ seq.length) (hj : j + lb ≤ seq.length)
    (hin : spanInside (spanAt ⟨seq, i⟩ la) (spanAt ⟨seq, j⟩ lb))
    (hne : spanAt ⟨seq, i⟩ la ≠ spanAt ⟨seq, j⟩ lb) :
    la < lb := by
  obtain ⟨_, hstart, hend⟩ := hin
  have hi0 : i < seq.length := by omega
  have hj0 : j < seq.length := by omega
  have hi1 : i + la - 1 < seq.length := by omega
  have hj1 : j + lb - 1 < seq.length := by omega
  have hstart2 : (seq[j]).lineNo ≤ (seq[i]).lineNo := by
    have e1 : (spanAt ⟨seq, i⟩ la).startLine = (seq[i]).lineNo := getD_lineNo hi0
    have e2 : (spanAt ⟨seq, j⟩ lb).startLine = (seq[j]).lineNo := getD_lineNo hj0
    rw [e1, e2] at hstart
    exact hstart
  have hend2 : (seq[i + la - 1]).lineNo ≤ (seq[j + lb - 1]).lineNo := by
    have e1 : (spanAt ⟨seq, i⟩ la).endLine = (seq[i + la - 1]).lineNo := getD_lineNo hi1
    have e2 : (spanAt ⟨seq, j⟩ lb).endLine = (seq[j + lb - 1]).lineNo := getD_lineNo hj1
    rw [e1, e2] at hend
    exact hend
  have hidx1 : j ≤ i := index_le_of_lineNo_le hmono hj0 hi0 hstart2
  have hidx2 : i + la - 1 ≤ j + lb - 1 := index_le_of_lineNo_le hmono hi1 hj1 hend2
  rcases Nat.lt_or_ge la lb with hlt | hge
  · exact hlt
  · exfalso
    have hla_eq : la = lb := by omega
    have hij : i = j := by omega
    exact hne (by rw [hij, hla_eq])

/-! ### Maximality of the reported Exact groups -/

theorem applyCap_fst_sublist (cap : Option Nat) (ex nr : List MatchGroup) :
    (applyCap cap ex nr).1.Sublist ex := by
  cases cap with
  | none => exact List.Sublist.refl _
  | some n =>
    show (if ex.length + nr.length ≤ n then (ex, nr, false)
        else (ex.take n, nr.take (n - ex.length), true)).1.Sublist ex
    by_cases hle : ex.length + nr.length ≤ n
    · rw [if_pos hle]
    · rw [if_neg hle]; exact List.take_sublist _ _

theorem exactGroups_pairwise (cfg : Config) (units : List SourceUnit) :
    (exactGroups cfg units).Pairwise (fun a b => lenGE a b ∧ ¬ groupInside b a) := by
  have hs : ((exactCandidates cfg units).insertionSort lenGE).Pairwise lenGE :=
    List.sorted_insertionSort lenGE _
  have h2 := dedup_pairwise ((exactCandidates cfg units).insertionSort lenGE)
  have h1 : (exactGroups cfg units).Pairwise lenGE :=
    List.Pairwise.sublist (dedup_sublist _) hs
  exact h1.and h2

theorem cappedExact_pairwise (cfg : Config) (units : List SourceUnit) :
    (cappedExact cfg units).Pairwise (fun a b => lenGE a b ∧ ¬ groupInside b a) :=
  List.Pairwise.sublist (applyCap_fst_sublist _ _ _) (exactGroups_pairwise cfg units)

/-! ### The report order is a total preorder -/

theorem charLTb_irrefl (a : Char) : charLTb a a = false := by
  unfold charLTb
  exact decide_eq_false (Nat.lt_irrefl _)

theorem charLTb_trans {a b c : Char} (h1 : charLTb a b = true)
    (h2 : charLTb b c = true) : charLTb a c = true := by
  unfold charLTb at h1 h2 ⊢
  exact decide_eq_true (Nat.lt_trans (of_decide_eq_true h1) (of_decide_eq_true h2))

theorem charLTb_eq_false {a b : Char} (h1 : charLTb a b = false)
    (h2 : charLTb b a = false) : a = b := by
  unfold charLTb at h1 h2
  have g1 := of_decide_eq_false h1
  have g2 := of_decide_eq_false h2
  exact Char.eq_of_val_eq
    (UInt32.ext (Nat.le_antisymm (Nat.le_of_not_lt g2) (Nat.le_of_not_lt g1)))

theorem listLTb_irrefl : ∀ a : List Char, listLTb a a = false := by
  intro a
  induction a with
  | nil => rfl
  | cons a0 as ih => simp [listLTb, charLTb_irrefl, ih]

theorem listLTb_eq_false : ∀ (a b : List Char),
    listLTb a b = false → listLTb b a = false → a = b := by
  intro a
  induction a with
  | nil =>
    intro b h1 h2
    cases b with
    | nil => rfl
    | cons b0 bs => simp [listLTb] at h1
  | cons a0 as ih =>
    intro b h1 h2
    cases b with
    | nil => simp [listLTb] at h2
    | cons b0 bs =>
      simp only [listLTb] at h1 h2
      cases hab : charLTb a0 b0 with
      | true => simp [hab] at h1
      | false =>
        cases hba : charLTb b0 a0 with
        | true => simp [hba] at h2
        | false =>
          simp only [hab, hba, Bool.false_eq_true, if_false] at h1 h2
          rw [charLTb_eq_false hab hba, ih bs h1 h2]

theorem listLTb_trans : ∀ (a b c : List Char),
    listLTb a b = true → listLTb b c = true → listLTb a c = true := by
  intro a
  induction a with
  | nil =>
    intro b c h1 h2
    cases b with
    | nil => cases h1
    | cons b0 bs =>
      cases c with
      | nil => cases h2
      | cons c0 cs => rfl
  | cons a0 as ih =>
    intro b c h1 h2
    cases b with
    | nil => cases h1
    | cons b0 bs =>
      cases c with
      | nil => cases h2
      | cons c0 cs =>
        simp only [listLTb] at h1 h2 ⊢
        cases hab : charLTb a0 b0 with
        | true =>
          cases hbc : charLTb b0 c0 with
          | true => simp [charLTb_trans hab hbc]
          | false =>
            cases hcb : charLTb c0 b0 with
            | true => simp [hbc, hcb] at h2
            | false =>
              rw [← charLTb_eq_false hbc hcb]
              simp [hab]
        | false =>
          cases hba : charLTb b0 a0 with
          | true => simp [hab, hba] at h1
          | false =>
            have heq := charLTb_eq_false hab hba
            subst heq
            simp only [hab, Bool.false_eq_true, if_false] at h1 h2 ⊢
            cases hbc : charLTb a0 c0 with
            | true => simp
            | false =>
              simp only [hbc, Bool.false_eq_true, if_false] at h2 ⊢
              cases hcb : charLTb c0 a0 with
              | true => simp [hcb] at h2
              | false =>
                simp only [hcb, Bool.false_eq_true, if_false] at h2 ⊢
                exact ih bs cs h1 h2

theorem unitLTb_trans {x y z : String} (h1 : unitLTb x y = true)
    (h2 : unitLTb y z = true) : unitLTb x z = true :=
  listLTb_trans _ _ _ h1 h2

theorem unitLTb_eq_false {x y : String} (h1 : unitLTb x y = false)
    (h2 : unitLTb y x = false) : x = y :=
  String.toList_inj.mp (listLTb_eq_false _ _ h1 h2)

theorem unitLTb_asymm {x y : String} (h : unitLTb x y = true) :
    unitLTb y x = false := by
  cases h2 : unitLTb y x with
  | false => rfl
  | true =>
    have := unitLTb_trans h h2
    unfold unitLTb at this
    rw [listLTb_irrefl] at this
    cases this

instance : IsTrans MatchGroup groupLE := by
  constructor
  intro a b c h1 h2
  unfold groupLE at *
  rcases h1 with h1 | ⟨e1, h1⟩
  · rcases h2 with h2 | ⟨e2, h2⟩
    · exact Or.inl (by omega)
    · exact Or.inl (by omega)
  · rcases h2 with h2 | ⟨e2, h2⟩
    · exact Or.inl (by omega)
    · refine Or.inr ⟨by omega, ?_⟩
      rcases h1 with h1 | ⟨u1, s1⟩
      · rcases h2 with h2 | ⟨u2, s2⟩
        · exact Or.inl (unitLTb_trans h1 h2)
        · exact Or.inl (by rw [← u2]; exact h1)
      · rcases h2 with h2 | ⟨u2, s2⟩
        · exact Or.inl (by rw [u1]; exact h2)
        · exact Or.inr ⟨u1.trans u2, Nat.le_trans s1 s2⟩

instance : IsTotal MatchGroup groupLE := by
  constructor
  intro a b
  unfold groupLE
  rcases Nat.lt_trichotomy a.len b.len with h | h | h
  · exact Or.inr (Or.inl h)
  · cases hab : unitLTb (firstMember a).unit (firstMember b).unit with
    | true => exact Or.inl (Or.inr ⟨h, Or.inl rfl⟩)
    | false =>
      cases hba : unitLTb (firstMember b).unit (firstMember a).unit with
      | true => exact Or.inr (Or.inr ⟨h.symm, Or.inl rfl⟩)
      | false =>
        have heq := unitLTb_eq_false hab hba
        rcases Nat.le_total (firstMember a).startLine (firstMember b).startLine with hs | hs
        · exact Or.inl (Or.inr ⟨h, Or.inr ⟨heq, hs⟩⟩)
        · exact Or.inr (Or.inr ⟨h.symm, Or.inr ⟨heq.symm, hs⟩⟩)
  · exact Or.inl (Or.inl h)

/-! ### Claim theorems on the fixture data -/

set_option maxRecDepth 40000

/-- C8: in the fixture, the identical comment line immediately precedes the
three identical print lines in both `function_one` and `function_two`, so
with comment lines retained and blank lines ignored the verbatim region
shared by the two functions spans 4 consecutive normalized lines
(lines 8–11 and 23–26): the 4 keys agree pairwise, the comment key is the
expected text, and the lines just before and just after the two regions
disagree, so the region is exactly these 4 lines. -/
theorem fixture_verbatim_region_four_lines :
    (((seqOf defaultConfig duplicatesUnit).drop 6).take 4).map (fun n => n.lineNo)
        = [8, 9, 10, 11] ∧
    (((seqOf defaultConfig duplicatesUnit).drop 17).take 4).map (fun n => n.lineNo)
        = [23, 24, 25, 26] ∧
    (((seqOf defaultConfig duplicatesUnit).drop 6).take 4).map (fun n => n.key)
        = (((seqOf defaultConfig duplicatesUnit).drop 17).take 4).map (fun n => n.key) ∧
    ((seqOf defaultConfig duplicatesUnit).getD 6 default).key
        = "# This block will be repeated in other functions" ∧
    ((seqOf defaultConfig duplicatesUnit).getD 5 default).key
        ≠ ((seqOf defaultConfig duplicatesUnit).getD 16 default).key ∧
    ((seqOf defaultConfig duplicatesUnit).getD 10 default).key
        ≠ ((seqOf defaultConfig duplicatesUnit).getD 21 default).key := by
  decide

/-- C9: in the fixture, the variant block of `function_three`
(lines 39–41) agrees with the common block (lines 9–11) on its first two
lines and differs only in the third, so the two 3-line windows have
distinct fingerprints but share exactly 2 of 3 line contents. -/
theorem fixture_variant_shares_two_of_three :
    normalizeLine defaultConfig (duplicatesLines.getD 38 "")
        = normalizeLine defaultConfig (duplicatesLines.getD 8 "") ∧
    normalizeLine defaultConfig (duplicatesLines.getD 39 "")
        = normalizeLine defaultConfig (duplicatesLines.getD 9 "") ∧
    normalizeLine defaultConfig (duplicatesLines.getD 40 "")
        ≠ normalizeLine defaultConfig (duplicatesLines.getD 10 "") ∧
    fingerprintAt 3 ⟨seqOf defaultConfig duplicatesUnit, 7⟩
        ≠ fingerprintAt 3 ⟨seqOf defaultConfig duplicatesUnit, 30⟩ ∧
    sharedLineCount 3 ⟨seqOf defaultConfig duplicatesUnit, 7⟩
        ⟨seqOf defaultConfig duplicatesUnit, 30⟩ = 2 := by
  decide

/-- C10: in the fixture, all three functions end with the identical
two-line tail (the comment line followed by the return line) at
lines 16–17, 28–29 and 43–44, and this 2-line triplicate is shorter than
the default `minBlockSize` of 3. -/
theorem fixture_tail_triplicate_below_min :
    normalizeLine defaultConfig (duplicatesLines.getD 15 "")
        = "# This block is repeated in all functions" ∧
    normalizeLine defaultConfig (duplicatesLines.getD 27 "")
        = "# This block is repeated in all functions" ∧
    normalizeLine defaultConfig (duplicatesLines.getD 42 "")
        = "# This block is repeated in all functions" ∧
    normalizeLine defaultConfig (duplicatesLines.getD 16 "")
        = "return \"All functions return this exact string\"" ∧
    normalizeLine defaultConfig (duplicatesLines.getD 28 "")
        = "return \"All functions return this exact string\"" ∧
    normalizeLine defaultConfig (duplicatesLines.getD 43 "")
        = "return \"All functions return this exact string\"" ∧
    2 < defaultConfig.minBlockSize := by
  decide

/-- C1: on the fixture with `minBlockSize = 3` and near detection enabled
at threshold 0.8, the engine succeeds and reports exactly one Exact
MatchGroup, whose members are the two verbatim occurrences (their maximal
extent, lines 8–11 and 23–26), together with a Near MatchGroup linking the
varying occurrence of `function_three` (lines 39–41) to the verbatim block
(lines 9–11) with a similarity score inside [0.67, 0.9]. -/
theorem scenario_one_report :
    analyze scenarioConfig [duplicatesUnit] = .ok (run scenarioConfig [duplicatesUnit]) ∧
    ((run scenarioConfig [duplicatesUnit]).groups.countP
        (fun g => decide (g.kind = MatchKind.exact))) = 1 ∧
    (∃ g ∈ (run scenarioConfig [duplicatesUnit]).groups,
      g.kind = MatchKind.exact ∧
        g.members = [⟨"examples/duplicates.py", 8, 11⟩, ⟨"examples/duplicates.py", 23, 26⟩]) ∧
    (∃ g ∈ (run scenarioConfig [duplicatesUnit]).groups,
      g.kind = MatchKind.near ∧
        g.members = [⟨"examples/duplicates.py", 9, 11⟩, ⟨"examples/duplicates.py", 39, 41⟩] ∧
        mkRat 67 100 ≤ g.score ∧ g.score ≤ mkRat 9 10) := by
  decide

/-- C2: the engine is deterministic — for equal SourceUnit collections and
equal configurations, two invocations of the analysis return identical
results; there is no dependence on external or retained state. -/
theorem analyze_deterministic (cfg1 cfg2 : Config) (units1 units2 : List SourceUnit)
    (hc : cfg1 = cfg2) (hu : units1 = units2) :
    analyze cfg1 units1 = analyze cfg2 units2 := by
  subst hc
  subst hu
  rfl

/-- Witness for C2 at the fixture input. -/
theorem analyze_deterministic_witness :
    analyze scenarioConfig [duplicatesUnit] = analyze scenarioConfig [duplicatesUnit] :=
  analyze_deterministic scenarioConfig scenarioConfig [duplicatesUnit] [duplicatesUnit] rfl rfl

/-- C6: an invocation over a SourceUnit containing a null/undefined line
aborts with the `MalformedInput` error and produces no partial MatchGroup
list: the result is an error, not an `ok` payload. -/
theorem malformed_aborts (cfg : Config) (units : List SourceUnit)
    (hv : validConfig cfg = true)
    (hm : ∃ u ∈ units, (none : Option String) ∈ u.lines) :
    analyze cfg units = .error .malformedInput ∧
      ∀ out : AnalysisOutput, analyze cfg units ≠ .ok out := by
  have hmal : hasMalformed units = true := by
    obtain ⟨u, hu, hl⟩ := hm
    unfold hasMalformed
    rw [List.any_eq_true]
    exact ⟨u, hu, by rw [List.any_eq_true]; exact ⟨none, hl, rfl⟩⟩
  have : analyze cfg units = .error .malformedInput := by
    unfold analyze
    rw [if_neg (by rw [hv]; exact fun h => by cases h), if_pos hmal]
  exact ⟨this, fun out hout => by rw [this] at hout; cases hout⟩

/-- Witness for C6: a unit with a null line at a valid configuration. -/
theorem malformed_aborts_witness :
    analyze defaultConfig [⟨"u", [some "a", none]⟩] = .error .malformedInput ∧
      ∀ out : AnalysisOutput,
        analyze defaultConfig [⟨"u", [some "a", none]⟩] ≠ .ok out :=
  malformed_aborts defaultConfig [⟨"u", [some "a", none]⟩] (by decide) (by decide)

/-- C4: the returned group sequence is sorted by the report order
(descending match length, then ascending first-occurrence SourceUnit
identifier, then ascending start line), and the ordering is stable: any
order-respecting sublist of the collected groups survives as a sublist of
the final report, so ties keep their collection order. -/
theorem report_ordered_stable (cfg : Config) (units : List SourceUnit)
    (out : AnalysisOutput) (h : analyze cfg units = .ok out) :
    out.groups.Sorted groupLE ∧
      ∀ c : List MatchGroup, c.Pairwise groupLE →
        c.Sublist (collectGroups cfg units) → c.Sublist out.groups := by
  obtain ⟨_, _, rfl⟩ := analyze_ok_inv h
  constructor
  · exact List.sorted_insertionSort groupLE _
  · intro c hc hsub
    exact List.sublist_insertionSort hc hsub

/-- Witness for C4 at the fixture input. -/
theorem report_ordered_stable_witness :
    (run scenarioConfig [duplicatesUnit]).groups.Sorted groupLE ∧
      ∀ c : List MatchGroup, c.Pairwise groupLE →
        c.Sublist (collectGroups scenarioConfig [duplicatesUnit]) →
          c.Sublist (run scenarioConfig [duplicatesUnit]).groups :=
  report_ordered_stable scenarioConfig [duplicatesUnit]
    (run scenarioConfig [duplicatesUnit]) (by decide)

theorem applyCap_nil (cap : Option Nat) :
    applyCap cap [] [] = ([], [], false) := by
  cases cap with
  | none => rfl
  | some n =>
    show (if ([] : List MatchGroup).length + ([] : List MatchGroup).length ≤ n
        then (([] : List MatchGroup), ([] : List MatchGroup), false)
        else (([] : List MatchGroup).take n,
          ([] : List MatchGroup).take (n - ([] : List MatchGroup).length), true))
      = ([], [], false)
    rw [if_pos (by simp)]

theorem thresholdFilter_nil (t? : Option ℚ) : thresholdFilter t? [] = [] := by
  cases t? <;> rfl

theorem run_nil (cfg : Config) : run cfg [] = ⟨[], false⟩ := by
  have hex : exactGroups cfg [] = [] := rfl
  have hnr : nearCandidates cfg [] = [] := rfl
  have hcap : applyCap cfg.maxReportedGroups (exactGroups cfg [])
      (nearCandidates cfg []) = ([], [], false) := by
    rw [hex, hnr]
    exact applyCap_nil _
  unfold run collectGroups cappedExact cappedNear capFlag
  rw [hcap, thresholdFilter_nil]
  rfl

/-- C7: valid-but-trivial inputs are not errors — with a valid
configuration, zero SourceUnits produce the empty result; a SourceUnit with
fewer windowable lines than `minBlockSize` produces zero windows; and every
member of every reported group comes from a unit with at least
`minBlockSize` windowable lines, so no group arises from a short unit. -/
theorem empty_and_short_inputs_ok (cfg : Config) (units : List SourceUnit)
    (out : AnalysisOutput) (h : analyze cfg units = .ok out) :
    (units = [] → out = ⟨[], false⟩) ∧
    (∀ u ∈ units, (seqOf cfg u).length < cfg.minBlockSize →
        windowsOf cfg.minBlockSize (seqOf cfg u) = []) ∧
    (∀ g ∈ out.groups, ∀ m ∈ g.members,
        ∃ u ∈ units, u.id = m.unit ∧ cfg.minBlockSize ≤ (seqOf cfg u).length) := by
  obtain ⟨hv, _, rfl⟩ := analyze_ok_inv h
  have hk2 := validConfig_min hv
  refine ⟨?_, ?_, ?_⟩
  · intro hu
    subst hu
    exact run_nil cfg
  · intro u hu hlen
    unfold windowsOf
    rw [Nat.sub_eq_zero_of_le (by omega)]
    rfl
  · intro g hg m hmem
    obtain ⟨hmin, horig, _⟩ := collectGroups_wf (by omega) g (run_mem.mp hg)
    obtain ⟨u, hu, hid, i, hbound, _⟩ := horig m hmem
    exact ⟨u, hu, hid, by omega⟩

/-- Witness for C7 at the fixture input. -/
theorem empty_and_short_inputs_ok_witness :
    (([duplicatesUnit] : List SourceUnit) = [] →
        run scenarioConfig [duplicatesUnit] = ⟨[], false⟩) ∧
    (∀ u ∈ [duplicatesUnit],
        (seqOf scenarioConfig u).length < scenarioConfig.minBlockSize →
          windowsOf scenarioConfig.minBlockSize (seqOf scenarioConfig u) = []) ∧
    (∀ g ∈ (run scenarioConfig [duplicatesUnit]).groups, ∀ m ∈ g.members,
        ∃ u ∈ [duplicatesUnit], u.id = m.unit ∧
          scenarioConfig.minBlockSize ≤ (seqOf scenarioConfig u).length) :=
  empty_and_short_inputs_ok scenarioConfig [duplicatesUnit]
    (run scenarioConfig [duplicatesUnit]) (by decide)

/-- C5: threshold monotonicity — for a fixed input and fixed configuration
apart from the near threshold, every Near group reported at the higher
threshold `t2` is also reported at any lower threshold `t1`; raising the
threshold can only remove Near groups, never add new ones. -/
theorem near_threshold_monotone (cfg : Config) (units : List SourceUnit)
    (t1 t2 : ℚ) (out1 out2 : AnalysisOutput) (hle : t1 ≤ t2)
    (h1 : analyze { cfg with nearThreshold := some t1 } units = .ok out1)
    (h2 : analyze { cfg with nearThreshold := some t2 } units = .ok out2) :
    ∀ g ∈ out2.groups, g.kind = .near → g ∈ out1.groups := by
  obtain ⟨_, _, rfl⟩ := analyze_ok_inv h1
  obtain ⟨_, _, rfl⟩ := analyze_ok_inv h2
  intro g hg hkind
  have hcoll : ∀ t : ℚ,
      collectGroups { cfg with nearThreshold := some t } units =
        cappedExact cfg units ++
          (cappedNear cfg units).filter (fun x => decide (t ≤ x.score)) :=
    fun t => rfl
  have hg2 := run_mem.mp hg
  rw [hcoll t2] at hg2
  rw [run_mem, hcoll t1]
  rcases List.mem_append.mp hg2 with hge | hgn
  · have := exactCandidates_kind g (exactGroups_subset g (cappedExact_subset g hge))
    rw [hkind] at this
    cases this
  · obtain ⟨hmem, hsc⟩ := List.mem_filter.mp hgn
    refine List.mem_append.mpr (Or.inr (List.mem_filter.mpr ⟨hmem, ?_⟩))
    exact decide_eq_true (le_trans hle (of_decide_eq_true hsc))

/-- C3: maximality — in every successful output over distinctly-named
SourceUnits, no reported Exact MatchGroup's span is a strict sub-span of
another reported group's span between the same pair of locations: windows
fully contained in an already-reported maximal match are dropped, so only
maximal, non-contained groups are reported. -/
theorem reported_exact_maximal (cfg : Config) (units : List SourceUnit)
    (out : AnalysisOutput) (hnd : (units.map SourceUnit.id).Nodup)
    (h : analyze cfg units = .ok out) :
    ∀ g ∈ out.groups, g.kind = .exact → ∀ h2 ∈ out.groups, ¬ strictlyInside g h2 := by
  obtain ⟨hv, _, rfl⟩ := analyze_ok_inv h
  have hk2 := validConfig_min hv
  intro g hg hkind h2 hh2 hstrict
  obtain ⟨hweak, m, hm, m2, hm2, hinside, hne⟩ := hstrict
  have hgmem := run_mem.mp hg
  have hh2mem := run_mem.mp hh2
  obtain ⟨hgmin, hgorig, _⟩ := collectGroups_wf (by omega) g hgmem
  obtain ⟨hhmin, hhorig, hhnear⟩ := collectGroups_wf (by omega) h2 hh2mem
  obtain ⟨u, hu, hid, i, hbound, heq⟩ := hgorig m hm
  obtain ⟨v, hv2, hid2, j, hbound2, heq2⟩ := hhorig m2 hm2
  have huv : u = v := by
    refine List.inj_on_of_nodup_map hnd hu hv2 ?_
    rw [hid, hid2]
    exact hinside.1
  subst huv
  have hlen : g.len < h2.len := by
    subst heq
    subst heq2
    exact spanAt_inside_len_lt (seqOf_mono cfg u) (by omega) (by omega)
      hbound hbound2 hinside hne
  rcases List.mem_append.mp hh2mem with hh2e | hh2n
  · rcases List.mem_append.mp hgmem with hge | hgn
    · by_cases hgh : g = h2
      · rw [hgh] at hlen
        omega
      · have hsym : (cappedExact cfg units).Pairwise
            (fun a b => (lenGE a b ∧ ¬ groupInside b a) ∨
              (lenGE b a ∧ ¬ groupInside a b)) :=
          (cappedExact_pairwise cfg units).imp (fun hab => Or.inl hab)
        have hall := List.Pairwise.forall (fun _ _ hxy => hxy.symm) hsym
        rcases hall hge hh2e hgh with ⟨hl, _⟩ | ⟨_, hni⟩
        · unfold lenGE at hl
          omega
        · exact hni hweak
    · have := nearCandidates_kind g (cappedNear_subset g (thresholdFilter_subset g hgn))
      rw [hkind] at this
      cases this
  · have hkn := nearCandidates_kind h2
      (cappedNear_subset h2 (thresholdFilter_subset h2 hh2n))
    have := hhnear hkn
    omega

/-- Witness for C3 at the fixture input: the reported Exact group is not a
strict sub-span of the reported Near group. -/
theorem reported_exact_maximal_witness :
    ¬ strictlyInside
      { kind := .exact
        members := [⟨"examples/duplicates.py", 8, 11⟩, ⟨"examples/duplicates.py", 23, 26⟩]
        len := 4, score := 1 }
      { kind := .near
        members := [⟨"examples/duplicates.py", 9, 11⟩, ⟨"examples/duplicates.py", 39, 41⟩]
        len := 3, score := mkRat 20 23 } :=
  reported_exact_maximal scenarioConfig [duplicatesUnit]
    (run scenarioConfig [duplicatesUnit]) (by decide) (by decide)
    _ (by decide) (by decide) _ (by decide)

/-- Witness for C5: thresholds 0.7 ≤ 0.8 on the fixture input — the Near
group reported at 0.8 is also reported at 0.7. -/
theorem near_threshold_monotone_witness :
    ({ kind := .near
       members := [⟨"examples/duplicates.py", 9, 11⟩, ⟨"examples/duplicates.py", 39, 41⟩]
       len := 3, score := mkRat 20 23 } : MatchGroup) ∈
      (run { scenarioConfig with nearThreshold := some (mkRat 7 10) }
        [duplicatesUnit]).groups :=
  near_threshold_monotone scenarioConfig [duplicatesUnit] (mkRat 7 10) (mkRat 4 5)
    (run { scenarioConfig with nearThreshold := some (mkRat 7 10) } [duplicatesUnit])
    (run { scenarioConfig with nearThreshold := some (mkRat 4 5) } [duplicatesUnit])
    (by decide) (by decide) (by decide)
    _ (by decide) (by decide)

end Textalyzer
